import Mathlib

/-!
Verification of the cssgen CSS-class constant generator and linter.

The Go sources are embedded shallowly:

* Go `map[string]T` values are modelled as association lists with key-wise
  update (`assocFind` / `assocUpsert`); Go `map[string]bool` sets as string
  lists with membership (`listMem`) and first-occurrence insertion
  (`setInsert`).  All map operations performed by the embedded code are
  key-wise, so the representation order never influences a result; where the
  Go code *iterates* a map (an unordered structure) this is modelled
  explicitly by quantifying over enumeration orders.
* `strings.Fields`, `strings.TrimPrefix`, `strings.TrimSpace`,
  `strings.Join(_, "")` and `strings.FieldsFunc` are modelled by `goFields`,
  `stripLeading`, `strTrim`, `concatAll` and `goFieldsFunc`; whitespace is `Char.isWhitespace`.
* The `float64` adoption percentage is modelled as a rational number.
* The CSS tokenizer (`tdewolff/parse/v2/css`) is external to the repository;
  parser functions are embedded at the token level, over `CSSTok` streams.
-/

namespace Cssgen

/-- Lookup in an association list by string key (embeds a Go `map[string]α`
read, `v, ok := m[k]`). -/
def assocFind {α : Type} (m : List (String × α)) (k : String) : Option α :=
  match m with
  | [] => none
  | (k2, v) :: rest => if k2 = k then some v else assocFind rest k

/-- Key-wise update of an association list (embeds a Go map write
`m[k] = v`): overwrite the entry if the key is present, append otherwise. -/
def assocUpsert {α : Type} (m : List (String × α)) (k : String) (v : α) :
    List (String × α) :=
  match m with
  | [] => [(k, v)]
  | (k2, v2) :: rest =>
    if k2 = k then (k, v) :: rest else (k2, v2) :: assocUpsert rest k v

/-- Membership in a string list (embeds a Go `map[string]bool` read, which
defaults to `false` for absent keys). -/
def listMem (l : List String) (k : String) : Bool :=
  match l with
  | [] => false
  | x :: xs => if x = k then true else listMem xs k

/-- Insertion into a Go map used as a set (`m[k] = true`): a no-op when the
key is already present. -/
def setInsert (l : List String) (k : String) : List String :=
  if listMem l k then l else l ++ [k]

/-- Concatenation of a list of strings with the empty separator (embeds
`strings.Join(parts, "")`). -/
def concatAll : List String → String
  | [] => ""
  | s :: rest => s ++ concatAll rest

/-- Prefix test on character lists (the computational core of
`strings.HasPrefix`). -/
def listPrefixOf : List Char → List Char → Bool
  | [], _ => true
  | _ :: _, [] => false
  | p :: ps, c :: cs => if p = c then listPrefixOf ps cs else false

/-- Embeds `strings.HasPrefix(s, p)`. -/
def strStartsWith (s p : String) : Bool :=
  listPrefixOf p.data s.data

/-- Drop the first `n` characters of a string. -/
def strDrop (s : String) (n : Nat) : String :=
  String.mk (s.data.drop n)

/-- Split a character list at every separator character, keeping empty
fields. -/
def splitChars (p : Char → Bool) : List Char → List (List Char)
  | [] => [[]]
  | c :: cs =>
    let r := splitChars p cs
    if p c then [] :: r
    else
      match r with
      | [] => [[c]]
      | g :: gs => (c :: g) :: gs

/-- Split a string at every character satisfying `p`, keeping empty
fields. -/
def strSplit (s : String) (p : Char → Bool) : List String :=
  (splitChars p s.data).map String.mk

/-- Embeds `strings.TrimSpace(s)`: drop leading and trailing whitespace
(whitespace is modelled by `Char.isWhitespace`). -/
def strTrim (s : String) : String :=
  String.mk
    (((s.data.dropWhile Char.isWhitespace).reverse.dropWhile
      Char.isWhitespace).reverse)

/-- Embeds `strings.Join(parts, sep)`. -/
def joinSep (sep : String) : List String → String
  | [] => ""
  | [s] => s
  | s :: rest => s ++ sep ++ joinSep sep rest

/-- Embeds `strings.TrimPrefix(s, p)`: drop `p` from the front of `s` when
`s` starts with `p`, otherwise return `s` unchanged. -/
def stripLeading (p s : String) : String :=
  if strStartsWith s p then strDrop s p.data.length else s

/-- Embeds `strings.Fields(s)`: the maximal runs of non-whitespace
characters of `s`. -/
def goFields (s : String) : List String :=
  (strSplit s fun c => c.isWhitespace).filter (fun t => t ≠ "")

/-- The lookup structure built by `buildLookupMaps` (`CSSLookup` in Go),
restricted to the two fields the resolution engine reads:
`ExactMap : map[string]string` and `AllCSSClasses : map[string]bool`. -/
structure CSSLookup where
  exactMap : List (String × String)
  allCSSClasses : List String
deriving DecidableEq, Repr

/-- `lookup.ExactMap[s]`. -/
def lookupExact (L : CSSLookup) (s : String) : Option String :=
  assocFind L.exactMap s

/-- `lookup.AllCSSClasses[s]` (`false` when absent). -/
def knownClass (L : CSSLookup) (s : String) : Bool :=
  listMem L.allCSSClasses s

/-- `ClassificationResult` from the Go linter: the three-way classification
of one class token. -/
inductive ClassificationResult where
  | classMatched
  | classBypassed
  | classZombie
deriving DecidableEq, Repr

/-- Embeds `classifyClass` (linter): zombie when the token is not a known
CSS class, matched when it additionally has an exact-map entry, bypassed
otherwise. -/
def classifyClass (className : String) (L : CSSLookup) : ClassificationResult :=
  if !(knownClass L className) then ClassificationResult.classZombie
  else if (lookupExact L className).isSome then ClassificationResult.classMatched
  else ClassificationResult.classBypassed

/-- Embeds `isInternalClass`: class names starting with an underscore. -/
def isInternalClass (className : String) : Bool :=
  strStartsWith className "_"

/-- Embeds `hasInternalClasses`: some whitespace-separated token of the
string is internal. -/
def hasInternalClasses (fullClassValue : String) : Bool :=
  (goFields fullClassValue).any isInternalClass

/-- `MatchType` from the Go linter.  `matchExact` is the zero value
(`MatchExact = iota`). -/
inductive MatchType where
  | matchExact
  | matchNone
deriving DecidableEq, Repr

/-- `ClassAnalysis`: the per-token breakdown record. -/
structure ClassAnalysis where
  className : String
  matchKind : MatchType
  suggestion : String
  context : String
deriving DecidableEq, Repr

/-- `ConstantSuggestion`: the result of resolving one reference string. -/
structure ConstantSuggestion where
  constants : List String
  analysis : List ClassAnalysis
  hasUnmatched : Bool
  unmatchedClasses : List String
  hasInvalid : Bool
  invalidClasses : List String
deriving DecidableEq, Repr

/-- The four accumulator slices of the token loop of
`ResolveBestConstants` (`suggestions`, `analysis`, `unmatchedClasses`,
`invalidClasses` in the Go source). -/
structure ResolveAcc where
  suggestions : List String
  analysis : List ClassAnalysis
  unmatchedClasses : List String
  invalidClasses : List String
deriving DecidableEq, Repr

/-- The per-token loop of `ResolveBestConstants`: classify each token and
accumulate, in token order.  In the matched case the Go code re-reads the
exact map and, were the entry absent, would record the zero-value analysis
(`MatchExact`, empty suggestion) without adding a constant; this unreachable
branch is embedded faithfully. -/
def resolveTokens (L : CSSLookup) : List String → ResolveAcc
  | [] => ⟨[], [], [], []⟩
  | c :: cs =>
    let r := resolveTokens L cs
    match classifyClass c L with
    | ClassificationResult.classZombie =>
      ⟨r.suggestions,
       ⟨c, MatchType.matchNone, "", ""⟩ :: r.analysis,
       c :: r.unmatchedClasses,
       c :: r.invalidClasses⟩
    | ClassificationResult.classBypassed =>
      ⟨r.suggestions,
       ⟨c, MatchType.matchNone, "", "valid CSS (no constant)"⟩ :: r.analysis,
       r.unmatchedClasses,
       r.invalidClasses⟩
    | ClassificationResult.classMatched =>
      match lookupExact L c with
      | some constName =>
        ⟨constName :: r.suggestions,
         ⟨c, MatchType.matchExact, constName, ""⟩ :: r.analysis,
         r.unmatchedClasses,
         r.invalidClasses⟩
      | none =>
        ⟨r.suggestions,
         ⟨c, MatchType.matchExact, "", ""⟩ :: r.analysis,
         r.unmatchedClasses,
         r.invalidClasses⟩

/-- Embeds `ResolveBestConstants`: try an exact whole-string match first
and short-circuit; otherwise split on whitespace and classify each token. -/
def resolveBestConstants (classString : String) (L : CSSLookup) :
    ConstantSuggestion :=
  match lookupExact L classString with
  | some constName =>
    ⟨[constName], [], false, [], false, []⟩
  | none =>
    let r := resolveTokens L (goFields classString)
    ⟨r.suggestions, r.analysis,
     decide (r.unmatchedClasses.length > 0), r.unmatchedClasses,
     decide (r.invalidClasses.length > 0), r.invalidClasses⟩

/-- Embeds `formatSuggestion`. -/
def formatSuggestion (s : ConstantSuggestion) : String :=
  if s.constants.length = 0 then "(no suggestion)"
  else if s.constants.length = 1 then "ui." ++ s.constants.headD ""
  else "\x7b " ++ joinSep ", " (s.constants.map (fun c => "ui." ++ c)) ++ " \x7d"

/-- Severity strings (`SeverityError`, `SeverityWarning` in `issue.go`). -/
def severityError : String := "error"

/-- Severity string for warnings. -/
def severityWarning : String := "warning"

/-- `fmt.Sprintf(IssueInvalidClass, c)` with
`IssueInvalidClass = "invalid CSS class %q not found in stylesheet"`
(the `%q` verb is modelled as plain double-quoting). -/
def issueInvalidClassText (c : String) : String :=
  "invalid CSS class \"" ++ c ++ "\" not found in stylesheet"

/-- `fmt.Sprintf(IssueHardcodedClass, v, sugg)` with
`IssueHardcodedClass = "hardcoded CSS class %q should use %s constant"`. -/
def issueHardcodedClassText (v sugg : String) : String :=
  "hardcoded CSS class \"" ++ v ++ "\" should use " ++ sugg ++ " constant"

/-- A linting issue, restricted to the fields the analyzed claims mention
(`FromLinter`, `Text`, `Severity`).  Position fields are location
bookkeeping orthogonal to the analyzed claims. -/
structure Issue where
  fromLinter : String
  text : String
  severity : String
deriving DecidableEq, Repr

/-- A class reference found by the scanner, restricted to the fields
`analyzeUsage` reads. -/
structure ClassReference where
  fullClassValue : String
  isConstant : Bool
  constName : String
deriving DecidableEq, Repr

/-- The mutable accumulators of the reference loop of `analyzeUsage`:
`actuallyUsed` and `availableForMigration` (Go maps used as sets),
the running counters, and the `issues` slice. -/
structure UsageAcc where
  actuallyUsed : List String
  availableForMigration : List String
  constantsFound : Nat
  classesFound : Nat
  errorCount : Nat
  invalidClasses : List String
  issues : List Issue
deriving DecidableEq, Repr

/-- The empty accumulator at loop entry. -/
def initUsageAcc : UsageAcc := ⟨[], [], 0, 0, 0, [], []⟩

/-- One iteration of the reference loop of `analyzeUsage`: registry
references mark `actuallyUsed`; hardcoded strings are resolved, invalid
tokens produce error issues, suggested constants mark
`availableForMigration`, and a warning issue is appended unless the string
has an internal token or an invalid token. -/
def processRef (L : CSSLookup) (acc : UsageAcc) (ref : ClassReference) :
    UsageAcc :=
  if ref.isConstant then
    { acc with
      actuallyUsed := setInsert acc.actuallyUsed ref.constName,
      constantsFound := acc.constantsFound + 1 }
  else
    let suggestion := resolveBestConstants ref.fullClassValue L
    let acc1 := { acc with classesFound := acc.classesFound + 1 }
    let acc2 :=
      if suggestion.hasInvalid then
        { acc1 with
          invalidClasses := acc1.invalidClasses ++ suggestion.invalidClasses,
          errorCount := acc1.errorCount + suggestion.invalidClasses.length,
          issues := acc1.issues ++ suggestion.invalidClasses.map
            (fun c => ⟨"csslint", issueInvalidClassText c, severityError⟩) }
      else acc1
    if suggestion.constants.length > 0 then
      let acc3 := { acc2 with
        availableForMigration :=
          suggestion.constants.foldl setInsert acc2.availableForMigration }
      if !hasInternalClasses ref.fullClassValue && !suggestion.hasInvalid then
        { acc3 with issues := acc3.issues ++
          [⟨"csslint",
            issueHardcodedClassText ref.fullClassValue (formatSuggestion suggestion),
            severityWarning⟩] }
      else acc3
    else acc2

/-- The lint statistics assembled by `analyzeUsage`, restricted to the
fields the analyzed claims mention.  `CompletelyUnused` is a Go `int` and
is modelled as an integer; the `float64` percentage is modelled as a
rational. -/
structure LintResult where
  totalConstants : Nat
  actuallyUsed : Nat
  availableForMigration : Nat
  completelyUnused : Int
  usagePercentage : ℚ
  constantsFound : Nat
  classesFound : Nat
  errorCount : Nat
  issues : List Issue
deriving DecidableEq, Repr

/-- Embeds `analyzeUsage`: fold the reference loop, then derive the counts:
`ActuallyUsed = len(actuallyUsed)`,
`AvailableForMigration = len(availableForMigration)`,
`CompletelyUnused = TotalConstants - ActuallyUsed - AvailableForMigration`,
and the percentage `ActuallyUsed / TotalConstants * 100` when the registry
is non-empty. -/
def analyzeUsage (constants : List (String × String))
    (references : List ClassReference) (L : CSSLookup) : LintResult :=
  let acc := references.foldl (processRef L) initUsageAcc
  { totalConstants := constants.length
    actuallyUsed := acc.actuallyUsed.length
    availableForMigration := acc.availableForMigration.length
    completelyUnused := (constants.length : Int) - acc.actuallyUsed.length -
      acc.availableForMigration.length
    usagePercentage :=
      if constants.length > 0 then
        (acc.actuallyUsed.length : ℚ) / (constants.length : ℚ) * 100
      else 0
    constantsFound := acc.constantsFound
    classesFound := acc.classesFound
    errorCount := acc.errorCount
    issues := acc.issues }

/-- The issues contributed by a single reference: the reference loop run
on that reference alone, from the empty accumulator. -/
def refIssues (L : CSSLookup) (ref : ClassReference) : List Issue :=
  (processRef L initUsageAcc ref).issues

/-- The per-segment capitalization step of `toGoName`: uppercase the first
character of a non-empty segment. -/
def capitalizeFirst (part : String) : String :=
  match part.data with
  | [] => part
  | c :: rest => String.mk (c.toUpper :: rest)

/-- Embeds `strings.FieldsFunc(s, r == '-' || r == '_')`: the maximal
substrings free of `-` and `_` (empty fields dropped). -/
def goFieldsFunc (s : String) : List String :=
  (strSplit s fun c => c == '-' || c == '_').filter (fun t => t ≠ "")

/-- Embeds `toGoName` (analyzer): trim a leading dot, remember and strip a
leading underscore, split on `-` and `_`, capitalize each part, join, and
re-prepend the underscore. -/
def toGoName (className : String) : String :=
  let name0 := stripLeading "." className
  let isInternal := strStartsWith name0 "_"
  let name1 := stripLeading "_" name0
  let parts := (goFieldsFunc name1).map capitalizeFirst
  let result := concatAll parts
  if isInternal then "_" ++ result else result

/-- Modelled from the spec: strip a leading underscore (remembering its
presence), split the remainder on `-` and `_`, capitalize the first letter
of each segment, concatenate, then re-prepend the underscore if the
original had it. -/
def specGeneratedID (name : String) : String :=
  let isInternal := strStartsWith name "_"
  let rest := if isInternal then strDrop name 1 else name
  let segments := strSplit rest fun c => c == '-' || c == '_'
  let joined := concatAll (segments.map capitalizeFirst)
  if isInternal then "_" ++ joined else joined

/-- The number of records before position `i` whose computed identifier is
`g`: the position of record `i` inside its collision group. -/
def countEarlier (names : List String) (i : Nat) (g : String) : Nat :=
  ((names.take i).filter (fun m => toGoName m = g)).length

/-- The size of the collision group of computed identifier `g`. -/
def groupSize (names : List String) (g : String) : Nat :=
  (names.filter (fun m => toGoName m = g)).length

/-- Embeds the collision-resolution pass of `AnalyzeClasses`: records are
grouped by computed identifier in encounter order; in every group of size
greater than one, the record at in-group index `i > 0` is renamed to the
identifier followed by the decimal numeral `i + 1`, while the first record
of the group keeps the identifier.  The result lists the final identifier
of each record, in the encounter order of `names`. -/
def finalGoNames (names : List String) : List String :=
  (List.range names.length).map fun i =>
    let g := toGoName (names.getD i "")
    if groupSize names g > 1 ∧ countEarlier names i g > 0 then
      g ++ Nat.repr (countEarlier names i g + 1)
    else g

/-- Each record name paired with its final generated identifier. -/
def finalGoNamePairs (names : List String) : List (String × String) :=
  names.zip (finalGoNames names)

/-- The CSS token stream of `tdewolff/parse/v2/css`, restricted to the
token kinds the parser inspects.  `tokText` is the token text the lexer
reports. -/
inductive CSSTok where
  | atKeyword (text : String)
  | delim (text : String)
  | ident (text : String)
  | colon
  | semicolon
  | comma
  | lbrace
  | rbrace
  | lparen
  | rparen
  | ws (text : String)
  | other (text : String)
deriving DecidableEq, Repr

/-- The text of a token as reported by the lexer. -/
def tokText : CSSTok → String
  | CSSTok.atKeyword s => s
  | CSSTok.delim s => s
  | CSSTok.ident s => s
  | CSSTok.colon => ":"
  | CSSTok.semicolon => ";"
  | CSSTok.comma => ","
  | CSSTok.lbrace => "\x7b"
  | CSSTok.rbrace => "\x7d"
  | CSSTok.lparen => "("
  | CSSTok.rparen => ")"
  | CSSTok.ws s => s
  | CSSTok.other s => s

/-- The save step of `extractDeclarations`: record the pending property
when both a name and a value have been accumulated; the value tokens are
joined with the empty separator and trimmed. -/
def saveDecl (props : List (String × String)) (currentProp : String)
    (currentVal : List String) : List (String × String) :=
  if currentProp ≠ "" ∧ currentVal ≠ [] then
    assocUpsert props currentProp (strTrim (concatAll currentVal))
  else props

/-- Embeds `extractDeclarations`: accumulate `property: value` pairs until
the closing brace (or the end of the stream), returning the property map
and the remaining tokens.  An identifier starts a property name when none
is pending and otherwise joins the value; a colon is skipped; a semicolon
saves the pending declaration; any other token joins a pending value. -/
def extractDecls (props : List (String × String)) (currentProp : String)
    (currentVal : List String) :
    List CSSTok → (List (String × String)) × List CSSTok
  | [] => (saveDecl props currentProp currentVal, [])
  | t :: rest =>
    match t with
    | CSSTok.rbrace => (saveDecl props currentProp currentVal, rest)
    | CSSTok.ident s =>
      if currentProp = "" then extractDecls props s currentVal rest
      else extractDecls props currentProp (currentVal ++ [s]) rest
    | CSSTok.colon => extractDecls props currentProp currentVal rest
    | CSSTok.semicolon =>
      extractDecls (saveDecl props currentProp currentVal) "" [] rest
    | tok =>
      if currentProp = "" then extractDecls props currentProp currentVal rest
      else extractDecls props currentProp (currentVal ++ [tokText tok]) rest

/-- Embeds `handleLayerDeclaration`: scan to the first left brace or
semicolon; a left brace preceded by an identifier yields the new current
layer; a semicolon (the `@layer a, b;` form) or an exhausted stream leaves
the layer unchanged. -/
def handleLayerDecl (layerName : String) :
    List CSSTok → (Option String) × List CSSTok
  | [] => (none, [])
  | t :: rest =>
    match t with
    | CSSTok.ident s => handleLayerDecl s rest
    | CSSTok.lbrace =>
      (if layerName ≠ "" then some layerName else none, rest)
    | CSSTok.semicolon => (none, rest)
    | _ => handleLayerDecl layerName rest

/-- One selector of a comma/compound group: a class name and the
pseudo-states attached to it. -/
structure SelectorInfo where
  className : String
  pseudoStates : List String
deriving DecidableEq, Repr

/-- Append a pseudo-state tag to the selector at `idx`. -/
def addPseudo (sels : List SelectorInfo) (idx : Nat) (ps : String) :
    List SelectorInfo :=
  match sels.get? idx with
  | some sel => sels.set idx { sel with pseudoStates := sel.pseudoStates ++ [ps] }
  | none => sels

/-- Embeds the parenthesis scan of the functional pseudo-class branch of
`handleClassRule` (`:not(...)`, `:is(...)`, `:where(...)`): parentheses are
tracked with a depth counter and every class selector inside contributes an
additional selector with no pseudo-state tag.  The fuel argument only
bounds the iteration count; callers supply more fuel than tokens, so it
never runs out before the stream does. -/
def parenScan (fuel : Nat) (depth : Nat) (sels : List SelectorInfo) :
    List CSSTok → List SelectorInfo × List CSSTok
  | [] => (sels, [])
  | t :: rest =>
    match fuel with
    | 0 => (sels, t :: rest)
    | fuel + 1 =>
      match t with
      | CSSTok.lparen => parenScan fuel (depth + 1) sels rest
      | CSSTok.rparen =>
        if depth - 1 = 0 then (sels, rest)
        else parenScan fuel (depth - 1) sels rest
      | CSSTok.delim s =>
        if strStartsWith s "." then
          match rest with
          | CSSTok.ident c :: r2 => parenScan fuel depth (sels ++ [⟨c, []⟩]) r2
          | _ :: r2 => parenScan fuel depth sels r2
          | [] => (sels, [])
        else parenScan fuel depth sels rest
      | _ => parenScan fuel depth sels rest

/-- Embeds the comma branch of `handleClassRule`: scan for the next class
selector, stopping at a left brace (which is consumed) or the end of the
stream. -/
def commaLoop (fuel : Nat) :
    List CSSTok → (Option String) × List CSSTok
  | [] => (none, [])
  | t :: rest =>
    match fuel with
    | 0 => (none, t :: rest)
    | fuel + 1 =>
      match t with
      | CSSTok.lbrace => (none, rest)
      | CSSTok.delim s =>
        if strStartsWith s "." then
          match rest with
          | CSSTok.ident c :: r2 => (some c, r2)
          | _ :: r2 => commaLoop fuel r2
          | [] => (none, [])
        else commaLoop fuel rest
      | _ => commaLoop fuel rest

/-- Embeds the selector-collection loop of `handleClassRule`: gather the
compound/comma selectors and their pseudo-states until the left brace of
the declaration block, then extract the declarations.  Returns `none` when
the stream ends before a declaration block is found (the Go code returns
without touching the state). -/
def classRuleLoop (fuel : Nat) (sels : List SelectorInfo) (currentIdx : Nat) :
    List CSSTok →
    Option ((List SelectorInfo × List (String × String)) × List CSSTok)
  | [] => none
  | t :: rest =>
    match fuel with
    | 0 => none
    | fuel + 1 =>
      match t with
      | CSSTok.delim s =>
        if strStartsWith s "." then
          match rest with
          | CSSTok.ident c :: r2 =>
            classRuleLoop fuel (sels ++ [⟨c, []⟩]) sels.length r2
          | _ :: r2 => classRuleLoop fuel sels currentIdx r2
          | [] => none
        else classRuleLoop fuel sels currentIdx rest
      | CSSTok.colon =>
        match rest with
        | CSSTok.ident pseudoName :: r2 =>
          if pseudoName = "not" ∨ pseudoName = "is" ∨ pseudoName = "where" then
            match r2 with
            | CSSTok.lparen :: r3 =>
              let pr := parenScan (r3.length + 1) 1 sels r3
              classRuleLoop fuel pr.1 currentIdx pr.2
            | _ :: r3 => classRuleLoop fuel sels currentIdx r3
            | [] => none
          else
            classRuleLoop fuel (addPseudo sels currentIdx (":" ++ pseudoName))
              currentIdx r2
        | _ :: r2 => classRuleLoop fuel sels currentIdx r2
        | [] => none
      | CSSTok.comma =>
        let cr := commaLoop (rest.length + 1) rest
        match cr.1 with
        | some c => classRuleLoop fuel (sels ++ [⟨c, []⟩]) sels.length cr.2
        | none => classRuleLoop fuel sels currentIdx cr.2
      | CSSTok.lbrace =>
        let dr := extractDecls [] "" [] rest
        some ((sels, dr.1), dr.2)
      | _ => classRuleLoop fuel sels currentIdx rest

/-- Embeds `handleClassRule` up to the declaration block: the token after
the dot must be an identifier (otherwise the rule is abandoned); the
collected selectors and declarations are returned together with the
remaining stream. -/
def handleClassRule (ts : List CSSTok) :
    (Option (List SelectorInfo × List (String × String))) × List CSSTok :=
  match ts with
  | CSSTok.ident c :: rest =>
    match classRuleLoop (rest.length + 1) [⟨c, []⟩] 0 rest with
    | some (r, rest2) => (some r, rest2)
    | none => (none, [])
  | _ :: rest => (none, rest)
  | [] => (none, [])

/-- A parsed class record (`CSSClass` in Go), restricted to the fields the
parser writes.  `pseudoStateProps` embeds the `PseudoStateProperties`
slice as pseudo-state / changes pairs. -/
structure CSSClass where
  name : String
  layer : String
  properties : List (String × String)
  pseudoStates : List String
  pseudoStateProps : List (String × List (String × String))
  sourceFile : String
  isInternal : Bool
deriving DecidableEq, Repr

/-- The property changes of a pseudo-state declaration block relative to
the base properties at diff time: the declared properties that are absent
from the base map or carry a different base value. -/
def pseudoChanges (base props : List (String × String)) :
    List (String × String) :=
  props.filter fun pv => ¬ (assocFind base pv.1 = some pv.2)

/-- The body of the delta loop of `handleClassRule` for one pseudo-state
tag: when the declaration block changes or inserts at least one property
relative to the current base properties, append a
`PseudoStateProperties` entry holding exactly those changes. -/
def applyPseudoDelta (props : List (String × String)) (c : CSSClass)
    (ps : String) : CSSClass :=
  let changes := pseudoChanges c.properties props
  if changes ≠ [] then
    { c with pseudoStateProps := c.pseudoStateProps ++ [(ps, changes)] }
  else c

/-- The body of the pseudo-state union loop of `handleClassRule`: add the
tag to the `pseudoStates` list unless already present. -/
def addPseudoState (c : CSSClass) (ps : String) : CSSClass :=
  if listMem c.pseudoStates ps then c
  else { c with pseudoStates := c.pseudoStates ++ [ps] }

/-- Embeds the application step of `handleClassRule` for one selector:
create the record if absent (the layer is the current `@layer` name,
falling back to the caller-supplied inferred layer); for a selector with
pseudo-states record the non-empty property deltas and union the
pseudo-state tags, leaving the base properties untouched; otherwise merge
the declarations into the base properties. -/
def applySelector (currentLayer inferredLayer filename : String)
    (props : List (String × String))
    (classes : List (String × CSSClass)) (sel : SelectorInfo) :
    List (String × CSSClass) :=
  let cls :=
    match assocFind classes sel.className with
    | some c => c
    | none =>
      let layer :=
        if currentLayer = "" ∧ inferredLayer ≠ "" then inferredLayer
        else currentLayer
      ⟨sel.className, layer, [], [], [], filename, strStartsWith sel.className "_"⟩
  let cls2 :=
    if sel.pseudoStates ≠ [] then
      sel.pseudoStates.foldl addPseudoState
        (sel.pseudoStates.foldl (applyPseudoDelta props) cls)
    else
      { cls with properties :=
          props.foldl (fun m pv => assocUpsert m pv.1 pv.2) cls.properties }
  assocUpsert classes sel.className cls2

/-- The parser state (`parserState` in Go): the active `@layer` name, the
caller-supplied inferred layer, and the class map in insertion order. -/
structure ParserState where
  currentLayer : String
  inferredLayer : String
  classes : List (String × CSSClass)
deriving DecidableEq, Repr

/-- Embeds the main token loop of `ParseCSS`: `@layer` at-keywords update
the current layer, a dot delimiter starts a class rule, and everything
else is skipped.  The fuel argument only bounds the iteration count;
`parseCSS` supplies more fuel than tokens. -/
def parseLoop (filename : String) :
    Nat → ParserState → List CSSTok → ParserState
  | _, st, [] => st
  | 0, st, _ => st
  | fuel + 1, st, t :: rest =>
    match t with
    | CSSTok.atKeyword s =>
      if s = "@layer" then
        let lr := handleLayerDecl "" rest
        let st2 :=
          match lr.1 with
          | some l => { st with currentLayer := l }
          | none => st
        parseLoop filename fuel st2 lr.2
      else parseLoop filename fuel st rest
    | CSSTok.delim s =>
      if strStartsWith s "." then
        let cr := handleClassRule rest
        let st2 :=
          match cr.1 with
          | some (sels, props) =>
            let newClasses := sels.foldl
              (applySelector st.currentLayer st.inferredLayer filename props)
              st.classes
            { st with classes := newClasses }
          | none => st
        parseLoop filename fuel st2 cr.2
      else parseLoop filename fuel st rest
    | _ => parseLoop filename fuel st rest

/-- Embeds `ParseCSS` up to its class map: run the token loop from an
empty state.  The Go function then converts the map to a slice by ranging
over it, so the order in which records leave `ParseCSS` is an arbitrary
enumeration order of this map, not necessarily the insertion order kept
here. -/
def parseCSS (tokens : List CSSTok) (filename inferredLayer : String) :
    List (String × CSSClass) :=
  (parseLoop filename (tokens.length + 1) ⟨"", inferredLayer, []⟩ tokens).classes

/-- Token stream of the stylesheet
`".foo-bar{color:red}.foo_bar{color:blue}"`: two classes whose computed
identifiers collide. -/
def toksDup : List CSSTok :=
  [CSSTok.delim ".", CSSTok.ident "foo-bar", CSSTok.lbrace,
   CSSTok.ident "color", CSSTok.colon, CSSTok.ident "red", CSSTok.rbrace,
   CSSTok.delim ".", CSSTok.ident "foo_bar", CSSTok.lbrace,
   CSSTok.ident "color", CSSTok.colon, CSSTok.ident "blue", CSSTok.rbrace]

/-- Token stream of the stylesheet
`"@layer components { .a { color: red; } } .b { color: blue; }"`:
a class rule inside an `@layer` block followed by a class rule after the
closing brace of the block. -/
def toksLayer : List CSSTok :=
  [CSSTok.atKeyword "@layer", CSSTok.ws " ", CSSTok.ident "components",
   CSSTok.ws " ", CSSTok.lbrace, CSSTok.ws " ",
   CSSTok.delim ".", CSSTok.ident "a", CSSTok.ws " ", CSSTok.lbrace,
   CSSTok.ws " ", CSSTok.ident "color", CSSTok.colon, CSSTok.ws " ",
   CSSTok.ident "red", CSSTok.semicolon, CSSTok.ws " ", CSSTok.rbrace,
   CSSTok.ws " ", CSSTok.rbrace, CSSTok.ws " ",
   CSSTok.delim ".", CSSTok.ident "b", CSSTok.ws " ", CSSTok.lbrace,
   CSSTok.ws " ", CSSTok.ident "color", CSSTok.colon, CSSTok.ws " ",
   CSSTok.ident "blue", CSSTok.semicolon, CSSTok.ws " ", CSSTok.rbrace]

/-- Token stream of the stylesheet
`".btn { background: transparent; } .btn:hover { background: blue; }"`. -/
def toksHover : List CSSTok :=
  [CSSTok.delim ".", CSSTok.ident "btn", CSSTok.ws " ", CSSTok.lbrace,
   CSSTok.ws " ", CSSTok.ident "background", CSSTok.colon, CSSTok.ws " ",
   CSSTok.ident "transparent", CSSTok.semicolon, CSSTok.ws " ",
   CSSTok.rbrace, CSSTok.ws " ",
   CSSTok.delim ".", CSSTok.ident "btn", CSSTok.colon, CSSTok.ident "hover",
   CSSTok.ws " ", CSSTok.lbrace, CSSTok.ws " ", CSSTok.ident "background",
   CSSTok.colon, CSSTok.ws " ", CSSTok.ident "blue", CSSTok.semicolon,
   CSSTok.ws " ", CSSTok.rbrace]

/-- Capitalizing the empty segment is a no-op. -/
lemma capitalizeFirst_empty : capitalizeFirst "" = "" := rfl

/-- Dropping empty segments before capitalizing and concatenating does not
change the concatenation, because capitalizing an empty segment yields the
empty string. -/
lemma concatAll_cap_filter (l : List String) :
    concatAll ((l.filter (fun t => !decide (t = ""))).map capitalizeFirst) =
    concatAll (l.map capitalizeFirst) := by
  induction l with
  | nil => rfl
  | cons s rest ih =>
    by_cases h : s = ""
    · subst h
      simpa [concatAll, capitalizeFirst_empty] using ih
    · simp [h, concatAll, ih]

/-- `strings.TrimPrefix` is the identity when the prefix is absent. -/
lemma stripLeading_no (p s : String) (h : strStartsWith s p = false) :
    stripLeading p s = s := by
  simp [stripLeading, h]

/-- `strings.TrimPrefix(s, "_")` drops one character when `s` starts with
an underscore. -/
lemma stripLeading_underscore (s : String) (h : strStartsWith s "_" = true) :
    stripLeading "_" s = strDrop s 1 := by
  simp [stripLeading, h]

/-- C1: every class token checked against a lookup lands in exactly one of
the three states: `classMatched` exactly when the token is in
`knownClasses` and has an `exactMatch` entry, `classBypassed` exactly when
it is in `knownClasses` without an `exactMatch` entry, and `classZombie`
exactly when it is not in `knownClasses` (regardless of any `exactMatch`
entry); in particular an underscore-prefixed known class with no entry is
always bypassed. -/
theorem c1_classify_trichotomy (L : CSSLookup) (t : String) :
    (classifyClass t L = ClassificationResult.classMatched ↔
      knownClass L t = true ∧ (lookupExact L t).isSome = true) ∧
    (classifyClass t L = ClassificationResult.classBypassed ↔
      knownClass L t = true ∧ (lookupExact L t).isSome = false) ∧
    (classifyClass t L = ClassificationResult.classZombie ↔
      knownClass L t = false) ∧
    (strStartsWith t "_" = true → knownClass L t = true →
      lookupExact L t = none →
      classifyClass t L = ClassificationResult.classBypassed) := by
  unfold classifyClass
  cases hk : knownClass L t
  · simp [hk]
  · cases he : lookupExact L t <;> simp [hk, he]

/-- Witness for `c1_classify_trichotomy`: the internal class `_x` of the
stylesheet with no generated identifier is classified bypassed. -/
theorem c1_classify_trichotomy_witness :
    classifyClass "_x" ⟨[("btn", "Btn")], ["btn", "_x"]⟩ =
      ClassificationResult.classBypassed :=
  (c1_classify_trichotomy ⟨[("btn", "Btn")], ["btn", "_x"]⟩ "_x").2.2.2
    (by decide) (by decide) (by decide)

/-- C3: the collision-resolution result depends on the enumeration order
of the parsed class map.  Parsing
`".foo-bar{color:red}.foo_bar{color:blue}"` yields the two records
`foo-bar` and `foo_bar`; `ParseCSS` turns its class map into a slice by
ranging over a Go map, whose enumeration order is randomized per run, and
the two possible enumeration orders assign different generated identifiers
to the record `foo-bar` (`FooBar` in one order, `FooBar2` in the other),
so two runs on the same input need not produce identical identifiers. -/
theorem c3_identifier_depends_on_enumeration_order :
    (parseCSS toksDup "styles.css" "").map Prod.fst = ["foo-bar", "foo_bar"] ∧
    assocFind (finalGoNamePairs ["foo-bar", "foo_bar"]) "foo-bar" =
      some "FooBar" ∧
    assocFind (finalGoNamePairs ["foo_bar", "foo-bar"]) "foo-bar" =
      some "FooBar2" := by
  refine ⟨by decide, by decide, by decide⟩

/-- C4 counterexample: on the record names `foo-bar`, `foo_bar`,
`foo-bar2` (pairwise distinct), collision resolution renames `foo_bar` to
`FooBar2`, which collides with the identifier computed for `foo-bar2`, so
the final identifiers are not pairwise distinct. -/
theorem c4_counterexample_suffix_collision :
    finalGoNames ["foo-bar", "foo_bar", "foo-bar2"] =
      ["FooBar", "FooBar2", "FooBar2"] ∧
    ¬ (finalGoNames ["foo-bar", "foo_bar", "foo-bar2"]).Nodup := by
  refine ⟨by decide, by decide⟩

/-- Filtering a strict prefix of a list yields strictly fewer elements than
filtering the whole list when the element at the cut position satisfies the
predicate. -/
lemma filter_take_lt (names : List String) (i : Nat) (h : i < names.length)
    (q : String → Bool) (hq : q (names.getD i "") = true) :
    ((names.take i).filter q).length < (names.filter q).length := by
  have hd : List.drop i names = names.getD i "" :: List.drop (i + 1) names := by
    rw [List.getD_eq_getElem _ _ h]
    exact List.drop_eq_getElem_cons h
  conv_rhs => rw [← List.take_append_drop i names]
  rw [List.filter_append, List.length_append, hd, List.filter_cons, hq]
  simp

/-- A record position inside its collision group is strictly below the
group size. -/
lemma countEarlier_lt_groupSize (names : List String) (i : Nat)
    (h : i < names.length) :
    countEarlier names i (toGoName (names.getD i "")) <
    groupSize names (toGoName (names.getD i "")) := by
  unfold countEarlier groupSize
  exact filter_take_lt names i h _ (by simp)

/-- The final identifier of the record at position `i`, by unfolding the
range/map structure of `finalGoNames`. -/
lemma finalGoNames_getD (names : List String) (i : Nat)
    (h : i < names.length) :
    (finalGoNames names).getD i "" =
      if groupSize names (toGoName (names.getD i "")) > 1 ∧
          countEarlier names i (toGoName (names.getD i "")) > 0 then
        toGoName (names.getD i "") ++
          Nat.repr (countEarlier names i (toGoName (names.getD i "")) + 1)
      else toGoName (names.getD i "") := by
  unfold finalGoNames
  rw [List.getD_eq_getElem?_getD, List.getElem?_map, List.getElem?_range h]
  rfl

/-- C4 (amended): after collision resolution, every record keeps its
computed identifier when it is the first of its collision group (no
earlier record computes the same identifier), and the record at in-group
position `k > 0` receives the identifier with decimal suffix `k + 1`;
identifiers need not be globally pairwise distinct, because a suffixed
identifier can coincide with the identifier computed for another record
(`c4_counterexample_suffix_collision`). -/
theorem c4_suffix_assignment (names : List String) (i : Nat)
    (h : i < names.length) :
    (finalGoNames names).length = names.length ∧
    (countEarlier names i (toGoName (names.getD i "")) = 0 →
      (finalGoNames names).getD i "" = toGoName (names.getD i "")) ∧
    (0 < countEarlier names i (toGoName (names.getD i "")) →
      (finalGoNames names).getD i "" =
        toGoName (names.getD i "") ++
          Nat.repr (countEarlier names i (toGoName (names.getD i "")) + 1)) := by
  refine ⟨by simp [finalGoNames], ?_, ?_⟩
  · intro h0
    rw [finalGoNames_getD names i h, if_neg (fun hc => absurd hc.2 (by omega))]
  · intro hpos
    have h2 : groupSize names (toGoName (names.getD i "")) > 1 := by
      have := countEarlier_lt_groupSize names i h
      omega
    rw [finalGoNames_getD names i h, if_pos ⟨h2, hpos⟩]

/-- Witness for `c4_suffix_assignment`: in the list `foo-bar`, `foo_bar`
the second record is at in-group position 1 and receives suffix 2. -/
theorem c4_suffix_assignment_witness :
    (finalGoNames ["foo-bar", "foo_bar"]).getD 1 "" =
      toGoName "foo_bar" ++ Nat.repr 2 := by
  rw [(c4_suffix_assignment ["foo-bar", "foo_bar"] 1 (by decide)).2.2 (by decide)]
  decide

/-- C7: the `@layer` scope is not block-structured in the parser: the
current layer set by `@layer components { ... }` is never reset, so the
rule `.b`, which appears after the closing brace of the layer block, still
receives layer `components` instead of the caller-supplied inferred layer
`base`. -/
theorem c7_layer_persists_after_block :
    Option.map CSSClass.layer
      (assocFind (parseCSS toksLayer "styles.css" "base") "a") =
      some "components" ∧
    Option.map CSSClass.layer
      (assocFind (parseCSS toksLayer "styles.css" "base") "b") =
      some "components" ∧
    Option.map CSSClass.layer
      (assocFind (parseCSS toksLayer "styles.css" "base") "b") ≠
      some "base" := by
  refine ⟨by decide, by decide, by decide⟩

/-- C9: the generated identifier is a pure function of the class name,
computed exactly as the spec describes it — strip one leading underscore
(remembering it), split on `-` and `_`, capitalize each segment,
concatenate, re-prepend the underscore — for every class name (class names
never carry the leading dot that `toGoName` additionally trims); in
particular `btn--primary` maps to `BtnPrimary`, `_internal` to
`_Internal`, and both `foo-bar` and `foo_bar` map to `FooBar`. -/
theorem c9_toGoName_matches_spec :
    toGoName "btn--primary" = "BtnPrimary" ∧
    toGoName "_internal" = "_Internal" ∧
    toGoName "foo-bar" = "FooBar" ∧
    toGoName "foo_bar" = "FooBar" ∧
    ∀ name : String, strStartsWith name "." = false →
      toGoName name = specGeneratedID name := by
  refine ⟨by decide, by decide, by decide, by decide, ?_⟩
  intro name h
  simp only [toGoName, specGeneratedID, goFieldsFunc, stripLeading_no "." name h]
  cases hin : strStartsWith name "_"
  · rw [stripLeading_no "_" name hin]
    simp [concatAll_cap_filter]
  · rw [stripLeading_underscore name hin]
    simp [concatAll_cap_filter]

/-- Witness for `c9_toGoName_matches_spec`: the code identifier and the
spec identifier agree on `nav-item--active`. -/
theorem c9_toGoName_matches_spec_witness :
    toGoName "nav-item--active" = specGeneratedID "nav-item--active" :=
  c9_toGoName_matches_spec.2.2.2.2 "nav-item--active" (by decide)

/-- Field-wise characterization of the token loop of
`ResolveBestConstants`: the suggestions are the exact-map entries of the
known tokens in token order, and both the invalid and the unmatched lists
are exactly the tokens missing from the known-class set, in token order. -/
lemma resolveTokens_fields (L : CSSLookup) (ts : List String) :
    (resolveTokens L ts).suggestions =
      ts.filterMap (fun c => if knownClass L c then lookupExact L c else none) ∧
    (resolveTokens L ts).invalidClasses =
      ts.filter (fun c => !(knownClass L c)) ∧
    (resolveTokens L ts).unmatchedClasses =
      ts.filter (fun c => !(knownClass L c)) := by
  induction ts with
  | nil => exact ⟨rfl, rfl, rfl⟩
  | cons c cs ih =>
    cases hk : knownClass L c
    · have hcl : classifyClass c L = ClassificationResult.classZombie := by
        simp [classifyClass, hk]
      simp [resolveTokens, hcl, hk, ih.1, ih.2.1, ih.2.2]
    · cases he : lookupExact L c with
      | none =>
        have hcl : classifyClass c L = ClassificationResult.classBypassed := by
          simp [classifyClass, hk, he]
        simp [resolveTokens, hcl, hk, he, ih.1, ih.2.1, ih.2.2]
      | some v =>
        have hcl : classifyClass c L = ClassificationResult.classMatched := by
          simp [classifyClass, hk, he]
        simp [resolveTokens, hcl, hk, he, ih.1, ih.2.1, ih.2.2]

/-- A filtered list is non-empty exactly when some element satisfies the
predicate. -/
lemma decide_filter_pos (l : List String) (p : String → Bool) :
    decide (0 < (l.filter p).length) = l.any p := by
  induction l with
  | nil => rfl
  | cons x xs ih =>
    cases hp : p x
    · simp [List.filter_cons, hp, ih]
    · simp [List.filter_cons, hp]

/-- Field-wise characterization of `ResolveBestConstants` on strings that
are not matched verbatim by the exact map. -/
lemma resolveBestConstants_nonexact (L : CSSLookup) (s : String)
    (h : lookupExact L s = none) :
    (resolveBestConstants s L).constants =
      (goFields s).filterMap
        (fun c => if knownClass L c then lookupExact L c else none) ∧
    (resolveBestConstants s L).invalidClasses =
      (goFields s).filter (fun c => !(knownClass L c)) ∧
    (resolveBestConstants s L).unmatchedClasses =
      (goFields s).filter (fun c => !(knownClass L c)) ∧
    (resolveBestConstants s L).hasInvalid =
      (goFields s).any (fun c => !(knownClass L c)) ∧
    (resolveBestConstants s L).hasUnmatched =
      (goFields s).any (fun c => !(knownClass L c)) := by
  have hf := resolveTokens_fields L (goFields s)
  simp only [resolveBestConstants, h]
  refine ⟨hf.1, hf.2.1, hf.2.2, ?_, ?_⟩
  · rw [show (resolveTokens L (goFields s)).invalidClasses =
        (goFields s).filter (fun c => !(knownClass L c)) from hf.2.1]
    exact decide_filter_pos _ _
  · rw [show (resolveTokens L (goFields s)).unmatchedClasses =
        (goFields s).filter (fun c => !(knownClass L c)) from hf.2.2]
    exact decide_filter_pos _ _

/-- One step of the reference loop appends exactly the issues contributed
by the processed reference. -/
lemma processRef_issues_append (L : CSSLookup) (acc : UsageAcc)
    (ref : ClassReference) :
    (processRef L acc ref).issues = acc.issues ++ refIssues L ref := by
  unfold refIssues
  cases hc : ref.isConstant
  · by_cases h1 : (resolveBestConstants ref.fullClassValue L).hasInvalid
    · by_cases h2 :
        (resolveBestConstants ref.fullClassValue L).constants.length > 0
      · by_cases h3 : hasInternalClasses ref.fullClassValue
        · simp [processRef, hc, h1, h2, h3, initUsageAcc]
        · simp [processRef, hc, h1, h2, h3, initUsageAcc]
      · simp [processRef, hc, h1, h2, initUsageAcc]
    · by_cases h2 :
        (resolveBestConstants ref.fullClassValue L).constants.length > 0
      · by_cases h3 : hasInternalClasses ref.fullClassValue
        · simp [processRef, hc, h1, h2, h3, initUsageAcc]
        · simp [processRef, hc, h1, h2, h3, initUsageAcc]
      · simp [processRef, hc, h1, h2, initUsageAcc]
  · simp [processRef, hc, initUsageAcc]

/-- The issues of a run are the concatenation of the per-reference
issues, in reference order. -/
lemma foldl_processRef_issues (L : CSSLookup) (refs : List ClassReference) :
    ∀ acc : UsageAcc,
      ((refs.foldl (processRef L) acc).issues) =
        acc.issues ++ refs.flatMap (fun r => refIssues L r) := by
  induction refs with
  | nil => intro acc; simp
  | cons r rs ih =>
    intro acc
    rw [List.foldl_cons, ih, processRef_issues_append]
    simp

/-- Complete case analysis of the issues contributed by one hardcoded
reference that is not matched verbatim by the exact map: one error per
zombie token occurrence when any token is a zombie (and nothing else);
otherwise one warning when some token matched and no token is internal;
otherwise nothing. -/
lemma refIssues_hardcoded (L : CSSLookup) (ref : ClassReference)
    (h1 : ref.isConstant = false)
    (h2 : lookupExact L ref.fullClassValue = none) :
    refIssues L ref =
      if (goFields ref.fullClassValue).any (fun t => !(knownClass L t)) then
        ((goFields ref.fullClassValue).filter (fun t => !(knownClass L t))).map
          (fun z => ⟨"csslint", issueInvalidClassText z, severityError⟩)
      else if (resolveBestConstants ref.fullClassValue L).constants ≠ [] ∧
          hasInternalClasses ref.fullClassValue = false then
        [⟨"csslint",
          issueHardcodedClassText ref.fullClassValue
            (formatSuggestion (resolveBestConstants ref.fullClassValue L)),
          severityWarning⟩]
      else [] := by
  have hf := resolveTokens_fields L (goFields ref.fullClassValue)
  have hinv : (resolveBestConstants ref.fullClassValue L).hasInvalid =
      (goFields ref.fullClassValue).any (fun t => !(knownClass L t)) := by
    simp only [resolveBestConstants, h2]
    rw [show (resolveTokens L (goFields ref.fullClassValue)).invalidClasses =
        (goFields ref.fullClassValue).filter (fun c => !(knownClass L c)) from
        hf.2.1]
    exact decide_filter_pos _ _
  have hinvc : (resolveBestConstants ref.fullClassValue L).invalidClasses =
      (goFields ref.fullClassValue).filter (fun t => !(knownClass L t)) := by
    simp only [resolveBestConstants, h2]
    exact hf.2.1
  unfold refIssues
  cases hz : (goFields ref.fullClassValue).any (fun t => !(knownClass L t))
  · rw [hz] at hinv
    by_cases hcn :
        (resolveBestConstants ref.fullClassValue L).constants.length > 0
    · by_cases hint : hasInternalClasses ref.fullClassValue
      · simp [processRef, h1, hinv, hcn, hint, initUsageAcc, hz,
          List.length_pos]
      · have hne : (resolveBestConstants ref.fullClassValue L).constants ≠ [] :=
          List.length_pos.mp hcn
        simp [processRef, h1, hinv, hcn, hint, initUsageAcc, hz, hne]
    · simp [processRef, h1, hinv, hcn, initUsageAcc, hz]
      simp at hcn
      simp [hcn]
  · rw [hz] at hinv
    by_cases hcn :
        (resolveBestConstants ref.fullClassValue L).constants.length > 0
    · simp [processRef, h1, hinv, hinvc, hcn, initUsageAcc, hz]
    · simp [processRef, h1, hinv, hinvc, hcn, initUsageAcc, hz]

/-- C6 (amended): for every reference string not matched verbatim by the
exact map, the token loop accumulates the matched identifiers in token
order without deduplication, the invalid list collects exactly the zombie
token occurrences, and the unmatched list contains exactly the zombie
tokens — bypassed tokens (valid classes with no suggestion) are silently
allowed and appear in neither list. -/
theorem c6_token_accumulation (L : CSSLookup) (s : String)
    (h : lookupExact L s = none) :
    (resolveBestConstants s L).constants =
      (goFields s).filterMap
        (fun c => if knownClass L c then lookupExact L c else none) ∧
    (resolveBestConstants s L).invalidClasses =
      (goFields s).filter (fun c => !(knownClass L c)) ∧
    (resolveBestConstants s L).unmatchedClasses =
      (goFields s).filter (fun c => !(knownClass L c)) :=
  ⟨(resolveBestConstants_nonexact L s h).1,
   (resolveBestConstants_nonexact L s h).2.1,
   (resolveBestConstants_nonexact L s h).2.2.1⟩

/-- Witness for `c6_token_accumulation`: on the string
`"btn u fake btn"` over a lookup knowing `btn` (mapped to `Btn`) and the
bypassed class `u`, the constants are `Btn, Btn` (token order, duplicates
kept) and both the invalid and unmatched lists are exactly `fake`. -/
theorem c6_token_accumulation_witness :
    (resolveBestConstants "btn u fake btn"
      ⟨[("btn", "Btn")], ["btn", "u"]⟩).constants = ["Btn", "Btn"] ∧
    (resolveBestConstants "btn u fake btn"
      ⟨[("btn", "Btn")], ["btn", "u"]⟩).unmatchedClasses = ["fake"] := by
  have h := c6_token_accumulation ⟨[("btn", "Btn")], ["btn", "u"]⟩
    "btn u fake btn" (by decide)
  refine ⟨?_, ?_⟩
  · rw [h.1]; decide
  · rw [h.2.2]; decide

/-- C6 counterexample: the bypassed token `u` (a known class with no
exact-map entry) is absent from the unmatched list, so the unmatched list
is not the union of the zombie and the bypassed tokens claimed by the
spec. -/
theorem c6_counterexample_bypassed_not_unmatched :
    classifyClass "u" ⟨[], ["u"]⟩ = ClassificationResult.classBypassed ∧
    (resolveBestConstants "u" ⟨[], ["u"]⟩).unmatchedClasses = [] ∧
    (resolveBestConstants "u" ⟨[], ["u"]⟩).unmatchedClasses ≠ ["u"] := by
  refine ⟨by decide, by decide, by decide⟩

/-- C2 (amended): in every run the emitted issues are the concatenation of
the per-reference issues; and for every hardcoded reference string not
matched verbatim by the exact map, the warning-severity hardcoded-class
issue is emitted only if the string has no zombie token, no
underscore-prefixed token, and at least one matched token — a string with
at least one zombie token yields exactly the error-severity invalid-class
issues, one per zombie token occurrence, and internal-prefixed tokens
suppress the warning but never the zombie errors.  (The claim as stated,
without the verbatim-match proviso, fails:
`c2_counterexample_exact_match_bypasses_zombies`.) -/
theorem c2_warning_error_discipline (constants : List (String × String))
    (refs : List ClassReference) (L : CSSLookup) (ref : ClassReference)
    (h1 : ref.isConstant = false)
    (h2 : lookupExact L ref.fullClassValue = none) :
    (analyzeUsage constants refs L).issues =
      refs.flatMap (fun r => refIssues L r) ∧
    refIssues L ref =
      (if (goFields ref.fullClassValue).any (fun t => !(knownClass L t)) then
        ((goFields ref.fullClassValue).filter (fun t => !(knownClass L t))).map
          (fun z => ⟨"csslint", issueInvalidClassText z, severityError⟩)
      else if (resolveBestConstants ref.fullClassValue L).constants ≠ [] ∧
          hasInternalClasses ref.fullClassValue = false then
        [⟨"csslint",
          issueHardcodedClassText ref.fullClassValue
            (formatSuggestion (resolveBestConstants ref.fullClassValue L)),
          severityWarning⟩]
      else []) := by
  constructor
  · simp only [analyzeUsage]
    rw [foldl_processRef_issues]
    simp [initUsageAcc]
  · exact refIssues_hardcoded L ref h1 h2

/-- Witness for `c2_warning_error_discipline`: the reference `btn fake`
over a stylesheet knowing only `btn` contributes exactly one error issue
for `fake` and no warning. -/
theorem c2_warning_error_discipline_witness :
    refIssues ⟨[("btn", "Btn")], ["btn"]⟩ ⟨"btn fake", false, ""⟩ =
      [⟨"csslint", issueInvalidClassText "fake", severityError⟩] := by
  rw [(c2_warning_error_discipline [] [] ⟨[("btn", "Btn")], ["btn"]⟩
    ⟨"btn fake", false, ""⟩ rfl (by decide)).2]
  decide

/-- C2 counterexample: the reference string `a b` is registered verbatim
in the exact map while neither token `a` nor `b` is a known class, so the
string contains zombie tokens, yet `analyzeUsage` emits the
warning-severity hardcoded-class issue for it and no error at all — the
claim that a string with a zombie token yields only invalid-class errors,
and that the warning requires the absence of zombie tokens, fails on
verbatim-registered strings. -/
theorem c2_counterexample_exact_match_bypasses_zombies :
    goFields "a b" = ["a", "b"] ∧
    knownClass ⟨[("a b", "AB")], []⟩ "a" = false ∧
    knownClass ⟨[("a b", "AB")], []⟩ "b" = false ∧
    refIssues ⟨[("a b", "AB")], []⟩ ⟨"a b", false, ""⟩ =
      [⟨"csslint", issueHardcodedClassText "a b" "ui.AB",
        severityWarning⟩] := by
  refine ⟨by decide, by decide, by decide, by decide⟩

/-- C10: a reference string that is itself a key of the exact map
short-circuits `ResolveBestConstants`: the result is the single
corresponding identifier with empty analysis and no invalid or unmatched
token, the token loop (and with it the known-class set) is never
consulted, and such a reference contributes no error-severity issue in
`analyzeUsage` — only the hardcoded-class warning, and not even that when
some token is underscore-prefixed. -/
theorem c10_exact_match_short_circuit (L : CSSLookup) (s c cn : String)
    (h : lookupExact L s = some c) :
    resolveBestConstants s L = ⟨[c], [], false, [], false, []⟩ ∧
    refIssues L ⟨s, false, cn⟩ =
      (if hasInternalClasses s = false then
        [⟨"csslint", issueHardcodedClassText s ("ui." ++ c), severityWarning⟩]
      else []) ∧
    ∀ i ∈ refIssues L ⟨s, false, cn⟩, i.severity ≠ severityError := by
  have hres : resolveBestConstants s L = ⟨[c], [], false, [], false, []⟩ := by
    simp [resolveBestConstants, h]
  have hiss : refIssues L ⟨s, false, cn⟩ =
      (if hasInternalClasses s = false then
        [⟨"csslint", issueHardcodedClassText s ("ui." ++ c), severityWarning⟩]
      else []) := by
    unfold refIssues
    by_cases hint : hasInternalClasses s
    · simp [processRef, hres, hint, initUsageAcc, formatSuggestion]
    · simp [processRef, hres, hint, initUsageAcc, formatSuggestion]
  refine ⟨hres, hiss, ?_⟩
  intro i hi
  rw [hiss] at hi
  by_cases hint : hasInternalClasses s
  · simp [hint] at hi
  · simp [hint] at hi
    subst hi
    show severityWarning ≠ severityError
    decide

/-- Witness for `c10_exact_match_short_circuit`: the string `a b`,
registered verbatim as `AB` while both tokens are unknown, resolves to
the single identifier and yields the warning issue, with no error. -/
theorem c10_exact_match_short_circuit_witness :
    resolveBestConstants "a b" ⟨[("a b", "AB")], []⟩ =
      ⟨["AB"], [], false, [], false, []⟩ ∧
    refIssues ⟨[("a b", "AB")], []⟩ ⟨"a b", false, "x"⟩ =
      [⟨"csslint", issueHardcodedClassText "a b" "ui.AB",
        severityWarning⟩] := by
  have h := c10_exact_match_short_circuit ⟨[("a b", "AB")], []⟩ "a b" "AB" "x"
    (by decide)
  exact ⟨h.1, by rw [h.2.1]; decide⟩

/-- `listMem` is list membership. -/
lemma listMem_iff (l : List String) (k : String) :
    listMem l k = true ↔ k ∈ l := by
  induction l with
  | nil => simp [listMem]
  | cons x xs ih =>
    by_cases h : x = k
    · simp [listMem, h]
    · have h2 : ¬ k = x := fun hh => h hh.symm
      simp [listMem, h, h2, ih]

/-- Go-map set insertion inserts the key into the underlying set. -/
lemma setInsert_toFinset (l : List String) (k : String) :
    (setInsert l k).toFinset = insert k l.toFinset := by
  by_cases h : listMem l k
  · have hk : k ∈ l.toFinset :=
      List.mem_toFinset.mpr ((listMem_iff l k).mp h)
    rw [setInsert, if_pos h, Finset.insert_eq_self.mpr hk]
  · rw [setInsert, if_neg h]
    simp [Finset.insert_eq, Finset.union_comm]

/-- Go-map set insertion preserves freedom from duplicates. -/
lemma setInsert_nodup (l : List String) (k : String) (h : l.Nodup) :
    (setInsert l k).Nodup := by
  by_cases hm : listMem l k
  · rwa [setInsert, if_pos hm]
  · rw [setInsert, if_neg hm]
    have hk : k ∉ l := fun hk => hm ((listMem_iff l k).mpr hk)
    simp [List.nodup_append, h, hk]

/-- Folding Go-map set insertions preserves freedom from duplicates. -/
lemma foldl_setInsert_nodup (xs : List String) :
    ∀ l, l.Nodup → (xs.foldl setInsert l).Nodup := by
  induction xs with
  | nil => intro l h; simpa using h
  | cons x xs ih =>
    intro l h
    rw [List.foldl_cons]
    exact ih _ (setInsert_nodup l x h)

/-- Folding Go-map set insertions unions the keys into the set. -/
lemma foldl_setInsert_toFinset (xs : List String) :
    ∀ l, (xs.foldl setInsert l).toFinset = l.toFinset ∪ xs.toFinset := by
  induction xs with
  | nil => intro l; simp
  | cons x xs ih =>
    intro l
    rw [List.foldl_cons, ih, setInsert_toFinset]
    ext a
    simp

/-- The size of a Go map used as a set, built by inserting every element
of `xs`, is the number of distinct elements of `xs`. -/
lemma length_foldl_setInsert (xs : List String) :
    (xs.foldl setInsert []).length = xs.toFinset.card := by
  have h1 : (xs.foldl setInsert []).Nodup :=
    foldl_setInsert_nodup xs [] (by simp)
  have h2 : (xs.foldl setInsert []).toFinset = xs.toFinset := by
    rw [foldl_setInsert_toFinset]
    simp
  rw [← List.toFinset_card_of_nodup h1, h2]

/-- One reference-loop step touches `actuallyUsed` exactly for
registry-direct references. -/
lemma processRef_actuallyUsed (L : CSSLookup) (acc : UsageAcc)
    (ref : ClassReference) :
    (processRef L acc ref).actuallyUsed =
      if ref.isConstant then setInsert acc.actuallyUsed ref.constName
      else acc.actuallyUsed := by
  cases hc : ref.isConstant
  · by_cases h1 : (resolveBestConstants ref.fullClassValue L).hasInvalid <;>
      by_cases h2 :
        (resolveBestConstants ref.fullClassValue L).constants.length > 0 <;>
      by_cases h3 : hasInternalClasses ref.fullClassValue <;>
      simp [processRef, hc, h1, h2, h3]
  · simp [processRef, hc]

/-- One reference-loop step inserts exactly the suggested constants of a
hardcoded reference into `availableForMigration` — regardless of whether
those constants are also directly referenced elsewhere. -/
lemma processRef_availableForMigration (L : CSSLookup) (acc : UsageAcc)
    (ref : ClassReference) :
    (processRef L acc ref).availableForMigration =
      if ref.isConstant then acc.availableForMigration
      else (resolveBestConstants ref.fullClassValue L).constants.foldl
        setInsert acc.availableForMigration := by
  cases hc : ref.isConstant
  · by_cases h2 :
      (resolveBestConstants ref.fullClassValue L).constants.length > 0
    · by_cases h1 : (resolveBestConstants ref.fullClassValue L).hasInvalid <;>
        by_cases h3 : hasInternalClasses ref.fullClassValue <;>
        simp [processRef, hc, h1, h2, h3]
    · have h0 : (resolveBestConstants ref.fullClassValue L).constants = [] := by
        simpa using h2
      by_cases h1 : (resolveBestConstants ref.fullClassValue L).hasInvalid <;>
        simp [processRef, hc, h1, h2, h0]
  · simp [processRef, hc]

/-- The two usage sets after the whole reference loop: `actuallyUsed`
collects the names of the registry-direct references and
`availableForMigration` the constants suggested for the hardcoded
references. -/
lemma foldl_processRef_sets (L : CSSLookup) (refs : List ClassReference) :
    ∀ acc : UsageAcc,
      (refs.foldl (processRef L) acc).actuallyUsed =
        ((refs.filter (fun r => r.isConstant)).map
          (fun r => r.constName)).foldl setInsert acc.actuallyUsed ∧
      (refs.foldl (processRef L) acc).availableForMigration =
        ((refs.filter (fun r => !r.isConstant)).flatMap
          (fun r => (resolveBestConstants r.fullClassValue L).constants)).foldl
          setInsert acc.availableForMigration := by
  induction refs with
  | nil => intro acc; exact ⟨rfl, rfl⟩
  | cons r rs ih =>
    intro acc
    cases hc : r.isConstant
    · constructor
      · rw [List.foldl_cons, (ih _).1, processRef_actuallyUsed]
        simp [hc, List.filter_cons]
      · rw [List.foldl_cons, (ih _).2, processRef_availableForMigration]
        simp [hc, List.filter_cons, List.foldl_append]
    · constructor
      · rw [List.foldl_cons, (ih _).1, processRef_actuallyUsed]
        simp [hc, List.filter_cons]
      · rw [List.foldl_cons, (ih _).2, processRef_availableForMigration]
        simp [hc, List.filter_cons]

/-- C5 (amended): `ActuallyUsed` counts the distinct identifiers with a
registry-direct reference, `AvailableForMigration` counts the distinct
identifiers some hardcoded string resolved to — regardless of whether
they are also directly referenced — and `CompletelyUnused` is defined as
the difference `TotalConstants - ActuallyUsed - AvailableForMigration`,
so the three always sum to `TotalConstants` but `CompletelyUnused` can be
negative when the two sets overlap
(`c5_counterexample_negative_unused`); the adoption percentage is
`ActuallyUsed / TotalConstants × 100` and never counts
migration-available identifiers as used. -/
theorem c5_usage_statistics (constants : List (String × String))
    (refs : List ClassReference) (L : CSSLookup) :
    (analyzeUsage constants refs L).totalConstants = constants.length ∧
    (analyzeUsage constants refs L).actuallyUsed =
      (((refs.filter (fun r => r.isConstant)).map
        (fun r => r.constName)).toFinset).card ∧
    (analyzeUsage constants refs L).availableForMigration =
      ((refs.filter (fun r => !r.isConstant)).flatMap
        (fun r =>
          (resolveBestConstants r.fullClassValue L).constants)).toFinset.card ∧
    ((analyzeUsage constants refs L).actuallyUsed : Int) +
      ((analyzeUsage constants refs L).availableForMigration : Int) +
      (analyzeUsage constants refs L).completelyUnused =
      ((analyzeUsage constants refs L).totalConstants : Int) ∧
    (0 < constants.length →
      (analyzeUsage constants refs L).usagePercentage =
        ((analyzeUsage constants refs L).actuallyUsed : ℚ) /
          (constants.length : ℚ) * 100) := by
  have h := foldl_processRef_sets L refs initUsageAcc
  refine ⟨rfl, ?_, ?_, ?_, ?_⟩
  · show (refs.foldl (processRef L) initUsageAcc).actuallyUsed.length = _
    rw [h.1]
    exact length_foldl_setInsert _
  · show
      (refs.foldl (processRef L) initUsageAcc).availableForMigration.length = _
    rw [h.2]
    exact length_foldl_setInsert _
  · simp only [analyzeUsage]
    omega
  · intro hlen
    simp [analyzeUsage, hlen]

/-- Witness for `c5_usage_statistics`: one registry constant, one direct
reference and one hardcoded reference to the same class give an adoption
percentage of 100. -/
theorem c5_usage_statistics_witness :
    (analyzeUsage [("Btn", "btn")] [⟨"", true, "Btn"⟩, ⟨"btn", false, ""⟩]
      ⟨[("btn", "Btn")], ["btn"]⟩).usagePercentage = 100 := by
  have h := c5_usage_statistics [("Btn", "btn")]
    [⟨"", true, "Btn"⟩, ⟨"btn", false, ""⟩] ⟨[("btn", "Btn")], ["btn"]⟩
  rw [h.2.2.2.2 (by decide)]
  have hau : (analyzeUsage [("Btn", "btn")]
      [⟨"", true, "Btn"⟩, ⟨"btn", false, ""⟩]
      ⟨[("btn", "Btn")], ["btn"]⟩).actuallyUsed = 1 := by decide
  rw [hau]
  norm_num

/-- C5 counterexample: with the single registry constant `Btn = "btn"`,
one registry-direct reference to `Btn` and one hardcoded reference
`"btn"`, the identifier `Btn` is counted both as actually used and as
available for migration although a direct reference exists, and
`CompletelyUnused = 1 - 1 - 1 = -1 < 0` — the three categories do not
partition the registry and are not all non-negative. -/
theorem c5_counterexample_negative_unused :
    (analyzeUsage [("Btn", "btn")] [⟨"", true, "Btn"⟩, ⟨"btn", false, ""⟩]
      ⟨[("btn", "Btn")], ["btn"]⟩).actuallyUsed = 1 ∧
    (analyzeUsage [("Btn", "btn")] [⟨"", true, "Btn"⟩, ⟨"btn", false, ""⟩]
      ⟨[("btn", "Btn")], ["btn"]⟩).availableForMigration = 1 ∧
    (analyzeUsage [("Btn", "btn")] [⟨"", true, "Btn"⟩, ⟨"btn", false, ""⟩]
      ⟨[("btn", "Btn")], ["btn"]⟩).completelyUnused = -1 ∧
    (analyzeUsage [("Btn", "btn")] [⟨"", true, "Btn"⟩, ⟨"btn", false, ""⟩]
      ⟨[("btn", "Btn")], ["btn"]⟩).completelyUnused < 0 := by
  refine ⟨by decide, by decide, by decide, by decide⟩

/-- Reading back the key just written into a Go map. -/
lemma assocFind_assocUpsert_self {α : Type} (m : List (String × α))
    (k : String) (v : α) :
    assocFind (assocUpsert m k v) k = some v := by
  induction m with
  | nil => simp [assocUpsert, assocFind]
  | cons p rest ih =>
    obtain ⟨k2, v2⟩ := p
    by_cases h : k2 = k
    · simp [assocUpsert, assocFind, h]
    · simp [assocUpsert, assocFind, h, ih]

/-- Writing one key of a Go map leaves every other key unchanged. -/
lemma assocFind_assocUpsert_ne {α : Type} (m : List (String × α))
    (k k3 : String) (v : α) (h : k3 ≠ k) :
    assocFind (assocUpsert m k v) k3 = assocFind m k3 := by
  have hkk : ¬ k = k3 := fun hh => h hh.symm
  induction m with
  | nil => simp [assocUpsert, assocFind, hkk]
  | cons p rest ih =>
    obtain ⟨k2, v2⟩ := p
    by_cases h2 : k2 = k
    · subst h2
      simp [assocUpsert, assocFind, hkk]
    · simp [assocUpsert, assocFind, h2, ih]

/-- `applySelector` writes exactly one key of the class map. -/
lemma applySelector_as_upsert (curL infL fn : String)
    (props : List (String × String)) (classes : List (String × CSSClass))
    (sel : SelectorInfo) :
    ∃ c2, applySelector curL infL fn props classes sel =
      assocUpsert classes sel.className c2 :=
  ⟨_, rfl⟩

/-- The delta loop leaves the base properties untouched and appends, for
each pseudo-state tag in order, one delta entry holding the properties of
the block that are absent from or different in the base — nothing when the
block changes nothing. -/
lemma deltaFold_fields (props : List (String × String))
    (psList : List String) :
    ∀ c : CSSClass,
      (psList.foldl (applyPseudoDelta props) c).properties = c.properties ∧
      (psList.foldl (applyPseudoDelta props) c).pseudoStateProps =
        c.pseudoStateProps ++
          (if pseudoChanges c.properties props = [] then []
           else psList.map
             (fun ps => (ps, pseudoChanges c.properties props))) := by
  induction psList with
  | nil => intro c; simp
  | cons ps rest ih =>
    intro c
    by_cases hch : pseudoChanges c.properties props = []
    · have hF : applyPseudoDelta props c ps = c := by
        simp [applyPseudoDelta, hch]
      rw [List.foldl_cons, hF]
      rcases ih c with ⟨ih1, ih2⟩
      refine ⟨ih1, ?_⟩
      rw [ih2]
      simp [hch]
    · have hF : applyPseudoDelta props c ps =
        { c with pseudoStateProps :=
            c.pseudoStateProps ++ [(ps, pseudoChanges c.properties props)] } := by
        simp [applyPseudoDelta, hch]
      rw [List.foldl_cons, hF]
      rcases ih ({ c with pseudoStateProps :=
        c.pseudoStateProps ++ [(ps, pseudoChanges c.properties props)] }) with
        ⟨ih1, ih2⟩
      constructor
      · rw [ih1]
      · rw [ih2]
        simp [hch]

/-- The pseudo-state union loop touches neither the base properties nor
the recorded deltas. -/
lemma stateFold_fields (psList : List String) :
    ∀ c : CSSClass,
      (psList.foldl addPseudoState c).properties = c.properties ∧
      (psList.foldl addPseudoState c).pseudoStateProps =
        c.pseudoStateProps := by
  induction psList with
  | nil => intro c; exact ⟨rfl, rfl⟩
  | cons ps rest ih =>
    intro c
    have hstep : (addPseudoState c ps).properties = c.properties ∧
        (addPseudoState c ps).pseudoStateProps = c.pseudoStateProps := by
      unfold addPseudoState
      split
      · exact ⟨rfl, rfl⟩
      · exact ⟨rfl, rfl⟩
    rw [List.foldl_cons]
    rcases ih (addPseudoState c ps) with ⟨i1, i2⟩
    exact ⟨i1.trans hstep.1, i2.trans hstep.2⟩

/-- C8: applying a rule whose selector carries pseudo-state tags records,
for each tag, a delta holding exactly the declared properties that are
absent from or different in the base properties at diff time, leaves the
base properties map unchanged, and touches no other record; concretely,
parsing `.btn{background:transparent}` followed by
`.btn:hover{background:blue}` leaves the `btn` record with base
`background = transparent` and the single delta
`:hover ↦ {background: blue}`. -/
theorem c8_pseudo_delta_frame (curL infL fn : String)
    (props : List (String × String)) (classes : List (String × CSSClass))
    (sel : SelectorInfo) (h : sel.pseudoStates ≠ []) :
    (∀ k, k ≠ sel.className →
      assocFind (applySelector curL infL fn props classes sel) k =
        assocFind classes k) ∧
    (∀ c, assocFind classes sel.className = some c →
      ∃ c2, assocFind (applySelector curL infL fn props classes sel)
          sel.className = some c2 ∧
        c2.properties = c.properties ∧
        c2.pseudoStateProps = c.pseudoStateProps ++
          (if pseudoChanges c.properties props = [] then []
           else sel.pseudoStates.map
             (fun ps => (ps, pseudoChanges c.properties props)))) ∧
    Option.map CSSClass.properties
      (assocFind (parseCSS toksHover "styles.css" "") "btn") =
      some [("background", "transparent")] ∧
    Option.map CSSClass.pseudoStateProps
      (assocFind (parseCSS toksHover "styles.css" "") "btn") =
      some [(":hover", [("background", "blue")])] := by
  refine ⟨?_, ?_, by decide, by decide⟩
  · intro k hk
    obtain ⟨c2, hc2⟩ := applySelector_as_upsert curL infL fn props classes sel
    rw [hc2]
    exact assocFind_assocUpsert_ne classes sel.className k c2 hk
  · intro c hc
    have heq : applySelector curL infL fn props classes sel =
        assocUpsert classes sel.className
          (sel.pseudoStates.foldl addPseudoState
            (sel.pseudoStates.foldl (applyPseudoDelta props) c)) := by
      simp only [applySelector, hc, h]
      simp only [ite_not]
      rw [if_neg h]
    refine ⟨_, by rw [heq]; exact assocFind_assocUpsert_self _ _ _, ?_, ?_⟩
    · rw [(stateFold_fields _ _).1, (deltaFold_fields _ _ _).1]
    · rw [(stateFold_fields _ _).2, (deltaFold_fields _ _ _).2]

/-- Witness for `c8_pseudo_delta_frame`: applying the `:hover` block
`background: blue` to a map holding the `btn` record with base
`background: transparent` records the delta and keeps the base. -/
theorem c8_pseudo_delta_frame_witness :
    ∃ c2, assocFind (applySelector "" "" "t.css" [("background", "blue")]
        [("btn", ⟨"btn", "", [("background", "transparent")], [], [],
          "t.css", false⟩)]
        ⟨"btn", [":hover"]⟩) "btn" = some c2 ∧
      c2.properties = [("background", "transparent")] ∧
      c2.pseudoStateProps = [(":hover", [("background", "blue")])] := by
  obtain ⟨c2, h1, h2, h3⟩ :=
    (c8_pseudo_delta_frame "" "" "t.css" [("background", "blue")]
      [("btn", ⟨"btn", "", [("background", "transparent")], [], [],
        "t.css", false⟩)]
      ⟨"btn", [":hover"]⟩ (by decide)).2.1
      ⟨"btn", "", [("background", "transparent")], [], [], "t.css", false⟩
      (by decide)
  refine ⟨c2, h1, ?_, ?_⟩
  · rw [h2]
  · rw [h3]
    decide

end Cssgen
